import Mathlib

/-!
Verification development for the GreenMindDB repository.

Part one embeds the dashboard/frontend helpers that exist in the source
tree (timeAgo, the two getApiUrl copies, the plant-detail target sorting).
Part two models the telemetry core (idempotency ledger, channel resolver,
sample writer, rollup maintainer, export job engine) from the design
specification, since that subsystem's implementation files are not part of
the source tree.
-/

/-- Model of the dashboard helper timeAgo (dashboard page component).
The input is `none` for a null timestamp; `toMillis` stands for
new Date(s).getTime() and `now` for Date.now(), both in milliseconds.
JavaScript falsiness of the empty string in the null check is modelled
explicitly, and Math.floor of a real quotient is integer floor division. -/
def timeAgo (toMillis : String → Int) (now : Int) (iso : Option String) : String :=
  match iso with
  | none => "never"
  | some s =>
    if s = "" then "never"
    else
      let diff : Int := now - toMillis s
      let sec : Int := diff.fdiv 1000
      if sec < 60 then toString sec ++ "s ago"
      else
        let mn : Int := sec.fdiv 60
        if mn < 60 then toString mn ++ "m ago"
        else
          let hrs : Int := mn.fdiv 60
          if hrs < 24 then toString hrs ++ "h ago"
          else toString (hrs.fdiv 24) ++ "d ago"

/-- The browser window.location fields the API URL helpers consult. -/
structure BrowserLoc where
  protocol : String
  hostname : String
deriving DecidableEq, Repr

/-- Execution context of getApiUrl: `window = none` models the server side
(typeof window === undefined); the two env vars are `none` when unset. -/
structure ApiEnv where
  window : Option BrowserLoc
  internalApiUrl : Option String
  nextPublicApiUrl : Option String
deriving DecidableEq, Repr

/-- JavaScript `v || d` on an optional string env var: the default is used
when the variable is unset or empty (falsy). -/
def envOr (v : Option String) (d : String) : String :=
  match v with
  | some s => if s = "" then d else s
  | none => d

/-- getApiUrl as written in the shared API library (frontend/src/lib/api.ts). -/
def libGetApiUrl (e : ApiEnv) : String :=
  match e.window with
  | none => envOr e.internalApiUrl "http://backend:8000"
  | some loc =>
    match e.nextPublicApiUrl with
    | some u =>
      if u = "" then loc.protocol ++ "//" ++ loc.hostname ++ ":8000" else u
    | none => loc.protocol ++ "//" ++ loc.hostname ++ ":8000"

/-- getApiUrl as written in the Mac mini dashboard API module. -/
def dashGetApiUrl (e : ApiEnv) : String :=
  match e.window with
  | none => envOr e.internalApiUrl "http://backend:8000"
  | some loc =>
    match e.nextPublicApiUrl with
    | some u =>
      if u = "" then loc.protocol ++ "//" ++ loc.hostname ++ ":8000" else u
    | none => loc.protocol ++ "//" ++ loc.hostname ++ ":8000"

/-- The metric display order list from the shared API library. -/
def METRIC_ORDER : List String :=
  ["air_temperature_c", "rel_humidity_pct", "soil_moisture_vwc_pct",
   "light_ppfd_umol_m2_s", "soil_ph"]

/-- One target range row as used by the plant-detail sort (only the fields
the comparator touches, plus an id to tell rows apart). -/
structure TargetRange where
  metricKey : String
  metricId : Nat
deriving DecidableEq, Repr

/-- JavaScript Array.indexOf on METRIC_ORDER: the index, or -1 when absent. -/
def metricIndex (key : String) : Int :=
  match METRIC_ORDER.indexOf? key with
  | some i => (i : Int)
  | none => -1

/-- The order the comparator (a, b) => aIndex - bIndex sorts by. -/
def targetLe (a b : TargetRange) : Prop :=
  metricIndex a.metricKey ≤ metricIndex b.metricKey

instance : DecidableRel targetLe := fun a b =>
  inferInstanceAs (Decidable (metricIndex a.metricKey ≤ metricIndex b.metricKey))

instance : IsTotal TargetRange targetLe :=
  ⟨fun a b => Int.le_total (metricIndex a.metricKey) (metricIndex b.metricKey)⟩

instance : IsTrans TargetRange targetLe :=
  ⟨fun _ _ _ h1 h2 => le_trans h1 h2⟩

/-- The plant-detail view's sortedTargets: a comparator sort of the target
ranges by METRIC_ORDER position (JavaScript sort is modelled by a stable
sort consistent with the comparator). -/
def sortedTargets (ts : List TargetRange) : List TargetRange :=
  List.insertionSort targetLe ts

/-!
Telemetry core, modelled from the specification. The implementation of
the ingestion subsystem is not among the source files, so every definition
below carries a doc comment naming the spec section it follows.
-/

/-- Association-list lookup keyed by decidable equality (the model of every
keyed store below: ledger, channel table, sample store, rollup table). -/
def alookup {α β : Type} [DecidableEq α] : List (α × β) → α → Option β
  | [], _ => none
  | e :: rest, k => if e.1 = k then some e.2 else alookup rest k

/-- Modelled from the spec: one raw sample of a device batch (section 6,
samples:[timestamp, metric_key, subject_ref, value]). Values are rationals
in place of the wire's decimal numbers. -/
structure RawSample where
  metricKey : String
  subjectRef : String
  ts : Int
  value : Rat
deriving DecidableEq, Repr

/-- Modelled from the spec: the per-sample outcome reported in the
response (sections 4.1 and 7): accepted, or rejected with a reason. -/
inductive SampleStatus where
  | accepted
  | rejected (reason : String)
deriving DecidableEq, Repr

/-- Modelled from the spec: overall batch status (section 6). -/
inductive BatchStatus where
  | ingested
  | duplicate
  | someRejected
  | rejectedBatch
deriving DecidableEq, Repr

/-- Modelled from the spec: the outcome recorded per ingestion attempt --
overall batch status plus the per-sample summary (data model,
IngestionAttempt). -/
structure Outcome where
  batchStatus : BatchStatus
  perSample : List SampleStatus
deriving DecidableEq, Repr

/-- Modelled from the spec: a rollup aggregate over one bucket (data
model, Rollup bucket: count/min/max/mean/last; the mean is derived from
the stored sum and count). -/
structure Agg where
  count : Nat
  minv : Rat
  maxv : Rat
  sum : Rat
  lastTs : Int
  lastVal : Rat
deriving DecidableEq, Repr

/-- The mean of a rollup aggregate. -/
def Agg.mean (a : Agg) : Rat := a.sum / (a.count : Rat)

/-- Modelled from the spec: the configuration the gateway consults --
the credential collaborator (credential to device id), the batch size
bound, the recognized metric keys, the metadata collaborator's resolvable
subjects, the clock and future-skew tolerance, and the maintained rollup
window sizes (sections 4.1, 4.4, 6). -/
structure Config where
  auths : List (String × String)
  maxBatch : Nat
  metrics : List String
  subjects : List String
  now : Int
  futureSkew : Int
  windows : List Int
deriving DecidableEq, Repr

/-- Modelled from the spec: the whole stored state -- idempotency ledger
keyed by (device id, request id); channel table keyed by the natural key
(device id, metric key, subject id) with the next surrogate id; sample
store keyed by (channel id, timestamp); buckets marked dirty and awaiting
recomputation; rollup table keyed by (channel id, window, bucket start). -/
structure SysState where
  ledger : List ((String × String) × Outcome)
  channels : List ((String × String × String) × Nat)
  nextChannel : Nat
  samples : List ((Nat × Int) × Rat)
  dirty : List (Nat × Int)
  rollups : List ((Nat × Int × Int) × Agg)
deriving DecidableEq, Repr

/-- Modelled from the spec: the Sample Writer's write of one validated
sample -- a write to an existing (channel_id, timestamp) overwrites
history (section 4.3). -/
def setSample (store : List ((Nat × Int) × Rat)) (c : Nat) (t : Int) (v : Rat) :
    List ((Nat × Int) × Rat) :=
  ((c, t), v) :: store.filter (fun e => e.1 ≠ (c, t))

/-- Modelled from the spec: applying a list of keyed writes in order
(section 5: samples within one batch apply in given order). -/
def writeSamples (store : List ((Nat × Int) × Rat))
    (entries : List ((Nat × Int) × Rat)) : List ((Nat × Int) × Rat) :=
  entries.foldl (fun st e => setSample st e.1.1 e.1.2 e.2) store

/-- Modelled from the spec: windows align to absolute time boundaries
(section 4.4), so the bucket containing t starts at the greatest multiple
of w not above t. -/
def bucketStart (w t : Int) : Int := w * (t.fdiv w)

/-- Modelled from the spec: the raw samples of one channel whose
timestamps fall in [b, b + w) (section 4.4), as (timestamp, value) pairs. -/
def bucketSamples (store : List ((Nat × Int) × Rat)) (c : Nat) (w b : Int) :
    List (Int × Rat) :=
  (store.filter (fun e => e.1.1 = c ∧ b ≤ e.1.2 ∧ e.1.2 < b + w)).map
    (fun e => (e.1.2, e.2))

/-- The aggregate of a single sample. -/
def Agg.single (t : Int) (v : Rat) : Agg :=
  { count := 1, minv := v, maxv := v, sum := v, lastTs := t, lastVal := v }

/-- Folding one more sample into an aggregate; the last value follows the
sample with the greatest timestamp seen. -/
def Agg.push (a : Agg) (t : Int) (v : Rat) : Agg :=
  { count := a.count + 1
    minv := min a.minv v
    maxv := max a.maxv v
    sum := a.sum + v
    lastTs := if a.lastTs < t then t else a.lastTs
    lastVal := if a.lastTs < t then v else a.lastVal }

/-- Modelled from the spec: recomputing a bucket's aggregate directly from
its raw samples (section 4.4); an empty bucket has no aggregate. -/
def mkAgg : List (Int × Rat) → Option Agg
  | [] => none
  | e :: rest => some (rest.foldl (fun a p => a.push p.1 p.2) (Agg.single e.1 e.2))

/-- Upsert of one rollup row. -/
def upsertRollup (rs : List ((Nat × Int × Int) × Agg)) (k : Nat × Int × Int)
    (a : Agg) : List ((Nat × Int × Int) × Agg) :=
  (k, a) :: rs.filter (fun e => e.1 ≠ k)

/-- Modelled from the spec: recomputation of one dirty bucket from raw
data (section 4.4); a bucket left empty loses its row. -/
def recomputeKey (store : List ((Nat × Int) × Rat))
    (rs : List ((Nat × Int × Int) × Agg)) (k : Nat × Int × Int) :
    List ((Nat × Int × Int) × Agg) :=
  match mkAgg (bucketSamples store k.1 k.2.1 k.2.2) with
  | some a => upsertRollup rs k a
  | none => rs.filter (fun e => e.1 ≠ k)

/-- The rollup keys a list of dirty (channel, timestamp) touches: one per
maintained window size. -/
def dirtyBuckets (windows : List Int) (d : List (Nat × Int)) :
    List (Nat × Int × Int) :=
  (d.map (fun p => windows.map (fun w => (p.1, w, bucketStart w p.2)))).flatten

/-- Modelled from the spec: the Rollup Maintainer settles pending
recomputation -- every bucket touched by a write was marked dirty and is
recomputed from raw data (section 4.4). -/
def settle (cfg : Config) (st : SysState) : SysState :=
  { st with
    rollups := (dirtyBuckets cfg.windows st.dirty).foldl
      (recomputeKey st.samples) st.rollups
    dirty := [] }

/-- Modelled from the spec: per-sample validation (section 4.1) -- a
recognized metric key, a timestamp within the future-skew tolerance, a
resolvable subject reference; the first failing check names the reason. -/
def validateSample (cfg : Config) (s : RawSample) : Option String :=
  if s.metricKey ∈ cfg.metrics then
    if s.ts ≤ cfg.now + cfg.futureSkew then
      if s.subjectRef ∈ cfg.subjects then none
      else some "unresolvable subject"
    else some "timestamp beyond future skew"
  else some "unrecognized metric"

/-- The per-sample status validation yields. -/
def statusOf (cfg : Config) (s : RawSample) : SampleStatus :=
  match validateSample cfg s with
  | some reason => SampleStatus.rejected reason
  | none => SampleStatus.accepted

/-- Modelled from the spec: the Channel Resolver's insert-or-fetch
(section 4.2) -- return the existing channel id for the natural key or
create one with the next surrogate id. -/
def resolveChannel (st : SysState) (dev metricKey subjectRef : String) :
    Nat × SysState :=
  match alookup st.channels (dev, metricKey, subjectRef) with
  | some c => (c, st)
  | none =>
    (st.nextChannel,
     { st with
       channels := ((dev, metricKey, subjectRef), st.nextChannel) :: st.channels
       nextChannel := st.nextChannel + 1 })

/-- Modelled from the spec: the gateway's treatment of one sample of a
batch (sections 4.1 to 4.4) -- validate; on failure reject the sample
alone; on success resolve the channel, write the sample, and mark the
write dirty for the maintainer. -/
def ingestSample (cfg : Config) (dev : String)
    (acc : List SampleStatus × SysState) (s : RawSample) :
    List SampleStatus × SysState :=
  match validateSample cfg s with
  | some reason => (acc.1 ++ [SampleStatus.rejected reason], acc.2)
  | none =>
    let r := resolveChannel acc.2 dev s.metricKey s.subjectRef
    (acc.1 ++ [SampleStatus.accepted],
     { r.2 with
       samples := setSample r.2.samples r.1 s.ts s.value
       dirty := (r.1, s.ts) :: r.2.dirty })

/-- Modelled from the spec: processing a whole batch in given order
(section 5). -/
def processBatch (cfg : Config) (st : SysState) (dev : String)
    (batch : List RawSample) : List SampleStatus × SysState :=
  batch.foldl (ingestSample cfg dev) ([], st)

/-- Modelled from the spec: the overall batch status (section 6) --
ingested when every sample was accepted, rejected when none was, else
partially rejected. -/
def overallStatus (outs : List SampleStatus) : BatchStatus :=
  if outs.all (fun o => o = SampleStatus.accepted) then BatchStatus.ingested
  else if outs.all (fun o => o ≠ SampleStatus.accepted) then BatchStatus.rejectedBatch
  else BatchStatus.someRejected

/-- Whether some already-recorded request id of a different device equals
this one (section 4.1: a request_id collision across different devices
rejects the whole batch). -/
def ridCollision (ledger : List ((String × String) × Outcome))
    (dev rid : String) : Bool :=
  ledger.any (fun e => e.1.2 = rid ∧ e.1.1 ≠ dev)

/-- Modelled from the spec: the Ingestion Gateway (section 4.1).
Authenticate; look the request id up in the ledger and on a hit return the
recorded outcome untouched (at-most-once); reject wholesale, before any
side effect, an empty request id, an oversized batch, or a request id
collision across devices; otherwise run the pipeline over every sample,
settle the rollups, and record the outcome in the ledger. -/
def ingest (cfg : Config) (st : SysState) (cred rid : String)
    (batch : List RawSample) : Outcome × SysState :=
  match alookup cfg.auths cred with
  | none => (⟨BatchStatus.rejectedBatch, []⟩, st)
  | some dev =>
    match alookup st.ledger (dev, rid) with
    | some out => (out, st)
    | none =>
      if rid = "" then (⟨BatchStatus.rejectedBatch, []⟩, st)
      else if cfg.maxBatch < batch.length then (⟨BatchStatus.rejectedBatch, []⟩, st)
      else if ridCollision st.ledger dev rid then (⟨BatchStatus.rejectedBatch, []⟩, st)
      else
        let r := processBatch cfg st dev batch
        let st2 := settle cfg r.2
        let out : Outcome := ⟨overallStatus r.1, r.1⟩
        (out, { st2 with ledger := ((dev, rid), out) :: st2.ledger })

/-- A rollup key the maintainer may hold: a maintained window size and a
bucket start aligned to it. -/
def goodKey (cfg : Config) (k : Nat × Int × Int) : Prop :=
  k.2.1 ∈ cfg.windows ∧ k.2.2 % k.2.1 = 0

/-- Every maintained rollup row is aligned and equals the recomputation of
its bucket from the raw samples. -/
def RollupsAccurate (cfg : Config) (st : SysState) : Prop :=
  ∀ k a, (k, a) ∈ st.rollups →
    goodKey cfg k ∧ mkAgg (bucketSamples st.samples k.1 k.2.1 k.2.2) = some a

/-- Mid-batch weakening of rollup accuracy: every maintained row is
aligned and is either already marked for recomputation or still equals
the recomputation of its bucket. -/
def StaleOk (cfg : Config) (st : SysState) : Prop :=
  ∀ k a, (k, a) ∈ st.rollups →
    goodKey cfg k ∧
    (k ∈ dirtyBuckets cfg.windows st.dirty ∨
     mkAgg (bucketSamples st.samples k.1 k.2.1 k.2.2) = some a)

/-- Modelled from the spec: export job statuses (section 4.5), plus the
canceled state a still-pending job may reach (section 5). -/
inductive JobStatus where
  | pending
  | running
  | done
  | failed
  | canceled
deriving DecidableEq, Repr

/-- Modelled from the spec: an export job's mutable part -- its status and
the artifact location set on completion. -/
structure ExportJob where
  status : JobStatus
  artifact : Option String
deriving DecidableEq, Repr

/-- Modelled from the spec: the export job transitions (sections 4.5 and
5): a worker's atomic pending-to-running claim; completion to done with
the artifact location; failure with the partial artifact discarded;
cancellation of a still-pending job. -/
inductive JobStep : ExportJob → ExportJob → Prop where
  | claim (j : ExportJob) (h : j.status = JobStatus.pending) :
      JobStep j { j with status := JobStatus.running }
  | finish (j : ExportJob) (loc : String) (h : j.status = JobStatus.running) :
      JobStep j { status := JobStatus.done, artifact := some loc }
  | fail (j : ExportJob) (h : j.status = JobStatus.running) :
      JobStep j { status := JobStatus.failed, artifact := none }
  | cancel (j : ExportJob) (h : j.status = JobStatus.pending) :
      JobStep j { j with status := JobStatus.canceled }

/-- Zero or more export job transitions. -/
inductive JobSteps : ExportJob → ExportJob → Prop where
  | refl (j : ExportJob) : JobSteps j j
  | tail {a b c : ExportJob} (hs : JobSteps a b) (h : JobStep b c) : JobSteps a c

/-- Modelled from the spec: the local state of one resolver racing to
create the channel of one natural key (section 4.2): about to look the
key up; about to attempt the optimistic insert; re-reading after losing
the insert to the uniqueness constraint; finished with a channel id. -/
inductive ProcState where
  | start
  | inserting
  | rereading
  | done (channel : Nat)
deriving DecidableEq, Repr

/-- Modelled from the spec: the shared state of the creation race for one
(device, metric, subject) triple -- the channel row if some resolver
created it, the count of creations that ever succeeded, the surrogate id a
successful insert would take, and the racing resolvers. -/
structure RaceState where
  table : Option Nat
  created : Nat
  nextId : Nat
  procs : List ProcState
deriving DecidableEq, Repr

/-- Modelled from the spec: one atomic step of the creation race
(section 4.2). A lookup hits and finishes, or misses and moves to the
insert; the insert succeeds only while the row is still absent (the
uniqueness constraint), else the loser re-reads and returns the winner's
id. -/
inductive RaceStep : RaceState → RaceState → Prop where
  | lookupHit (s : RaceState) (i : Nat) (h : i < s.procs.length) (c : Nat)
      (hp : s.procs.get ⟨i, h⟩ = ProcState.start) (ht : s.table = some c) :
      RaceStep s { s with procs := s.procs.set i (ProcState.done c) }
  | lookupMiss (s : RaceState) (i : Nat) (h : i < s.procs.length)
      (hp : s.procs.get ⟨i, h⟩ = ProcState.start) (ht : s.table = none) :
      RaceStep s { s with procs := s.procs.set i ProcState.inserting }
  | insertOk (s : RaceState) (i : Nat) (h : i < s.procs.length)
      (hp : s.procs.get ⟨i, h⟩ = ProcState.inserting) (ht : s.table = none) :
      RaceStep s { s with
        table := some s.nextId
        created := s.created + 1
        procs := s.procs.set i (ProcState.done s.nextId) }
  | insertConflict (s : RaceState) (i : Nat) (h : i < s.procs.length) (c : Nat)
      (hp : s.procs.get ⟨i, h⟩ = ProcState.inserting) (ht : s.table = some c) :
      RaceStep s { s with procs := s.procs.set i ProcState.rereading }
  | reread (s : RaceState) (i : Nat) (h : i < s.procs.length) (c : Nat)
      (hp : s.procs.get ⟨i, h⟩ = ProcState.rereading) (ht : s.table = some c) :
      RaceStep s { s with procs := s.procs.set i (ProcState.done c) }

/-- Zero or more race steps. -/
inductive RaceReach : RaceState → RaceState → Prop where
  | refl (s : RaceState) : RaceReach s s
  | tail {a b c : RaceState} (hs : RaceReach a b) (h : RaceStep b c) : RaceReach a c

/-- The race's initial state: no channel row yet, M resolvers about to
look the triple up on first sight. -/
def initRace (m : Nat) : RaceState :=
  { table := none, created := 0, nextId := 1, procs := List.replicate m ProcState.start }

/-- The invariant of the creation race: the resolver count is fixed;
while the row is absent nothing was created and nobody finished; once the
row holds a channel, exactly one creation happened and every finished
resolver returned that channel. -/
def RaceInv (m : Nat) (s : RaceState) : Prop :=
  s.procs.length = m ∧
  (s.table = none →
    s.created = 0 ∧ ∀ p ∈ s.procs, p = ProcState.start ∨ p = ProcState.inserting) ∧
  (∀ c, s.table = some c →
    s.created = 1 ∧ ∀ p ∈ s.procs, ∀ d, p = ProcState.done d → d = c)

/-- Modelled from the spec: an export request's parameters (section 6:
channels, from, to, resample), plus the job id that tells two requests
apart. -/
structure ExportRequest where
  jobId : Nat
  channels : List Nat
  fromTs : Int
  toTs : Int
  resample : Int
deriving DecidableEq, Repr

/-- The bucket start times the resampling spec induces over [fromTs, toTs). -/
def bucketStarts (fromTs toTs w : Int) : List Int :=
  if 0 < w then
    (List.range (((toTs - fromTs).toNat + (w.toNat - 1)) / w.toNat)).map
      (fun i => fromTs + w * (i : Int))
  else []

/-- One serialized row of an export artifact: channel, bucket start, and
the bucket's mean (empty when the bucket holds no samples). -/
def exportRow (store : List ((Nat × Int) × Rat)) (c : Nat) (w b : Int) : String :=
  toString c ++ "," ++ toString b ++ "," ++
    (match mkAgg (bucketSamples store c w b) with
     | some a => toString a.mean
     | none => "")

/-- Modelled from the spec: the Export Job Engine's materialization
(section 4.5) -- read the store for the requested channels and range,
apply the resampling, and serialize to the interchange artifact. -/
def runExport (req : ExportRequest) (store : List ((Nat × Int) × Rat)) : String :=
  String.intercalate "\n"
    ((req.channels.map (fun c =>
      (bucketStarts req.fromTs req.toTs req.resample).map
        (fun b => exportRow store c req.resample b))).flatten)

/-- A concrete configuration for witnesses: one device key, one metric,
one subject, a one-minute rollup window. -/
def cfg0 : Config :=
  { auths := [("key1", "dev1")], maxBatch := 10,
    metrics := ["air_temperature_c"], subjects := ["plant-1"],
    now := 1000, futureSkew := 60, windows := [60] }

/-- The empty initial stored state. -/
def st0 : SysState :=
  { ledger := [], channels := [], nextChannel := 1, samples := [],
    dirty := [], rollups := [] }

/-- A concrete valid sample for witnesses. -/
def sample0 : RawSample :=
  { metricKey := "air_temperature_c", subjectRef := "plant-1", ts := 30, value := 5 }

/-- A concrete invalid sample (unrecognized metric) for witnesses. -/
def sampleBad : RawSample :=
  { metricKey := "bogus_metric", subjectRef := "plant-1", ts := 30, value := 5 }

/- Theorems start here. -/

/-- A string ending in the character o is never the string "never". -/
theorem append_last_o_ne_never (s t : String) (h : t.data.getLast? = some 'o') :
    s ++ t ≠ "never" := by
  intro he
  have hd : s.data ++ t.data = "never".data := by
    have h0 := congrArg String.data he
    simpa [String.data_append] using h0
  have h2 : (s.data ++ t.data).getLast? = some 'o' := by
    rw [List.getLast?_append_of_ne_nil]
    · exact h
    · intro hnil; rw [hnil] at h; simp at h
  rw [hd] at h2
  exact (by decide : ¬("never".data.getLast? = some 'o')) h2

/-- C8: counterexample -- the empty string is not null, yet timeAgo maps
it to "never", because the JavaScript null check is a falsiness check. -/
theorem timeAgo_empty_counterexample :
    timeAgo (fun _ => 0) 0 (some "") = "never" ∧ (some "" : Option String) ≠ none :=
  ⟨rfl, by simp⟩

/-- C8 (amended): timeAgo returns "never" exactly when its input is null
or the empty string; for every other timestamp string it renders, with
sec = floor((now - t) / 1000), the seconds form when sec < 60, else the
minutes form when floor(sec / 60) < 60, else the hours form when
floor(min / 60) < 24, else the days form -- so a future timestamp shows a
negative seconds value rather than erroring. -/
theorem timeAgo_spec (toMillis : String → Int) (now : Int) (iso : Option String) :
    (timeAgo toMillis now iso = "never" ↔ iso = none ∨ iso = some "") ∧
    (∀ s, iso = some s → s ≠ "" →
      timeAgo toMillis now iso =
        (let sec : Int := (now - toMillis s).fdiv 1000
         if sec < 60 then toString sec ++ "s ago"
         else
           let mn : Int := sec.fdiv 60
           if mn < 60 then toString mn ++ "m ago"
           else
             let hrs : Int := mn.fdiv 60
             if hrs < 24 then toString hrs ++ "h ago"
             else toString (hrs.fdiv 24) ++ "d ago")) := by
  constructor
  · constructor
    · intro h
      cases hi : iso with
      | none => exact Or.inl rfl
      | some s =>
        by_cases hs : s = ""
        · subst hs; exact Or.inr rfl
        · exfalso
          rw [hi] at h
          simp only [timeAgo] at h
          rw [if_neg hs] at h
          split at h
          · exact append_last_o_ne_never _ _ (by decide) h
          · split at h
            · exact append_last_o_ne_never _ _ (by decide) h
            · split at h
              · exact append_last_o_ne_never _ _ (by decide) h
              · exact append_last_o_ne_never _ _ (by decide) h
    · rintro (h | h) <;> rw [h] <;> rfl
  · intro s hi hs
    rw [hi]
    simp only [timeAgo]
    rw [if_neg hs]

/-- C8 witness: a concrete five-second-old timestamp. -/
theorem timeAgo_spec_witness :
    timeAgo (fun _ => 0) 5000 (some "2024-01-01T00:00:00Z") = "5s ago" := by
  have h := (timeAgo_spec (fun _ => 0) 5000 (some "2024-01-01T00:00:00Z")).2
    "2024-01-01T00:00:00Z" rfl (by decide)
  exact h.trans rfl

/-- C9: the shared API library's getApiUrl and the dashboard module's
getApiUrl are extensionally equal, and both follow the documented rule:
on the server INTERNAL_API_URL with fallback http://backend:8000, on the
client NEXT_PUBLIC_API_URL when truthy, else the page's protocol and
hostname with port 8000. -/
theorem getApiUrl_copies_agree (e : ApiEnv) :
    libGetApiUrl e = dashGetApiUrl e ∧
    (e.window = none →
      libGetApiUrl e = envOr e.internalApiUrl "http://backend:8000") ∧
    (∀ loc, e.window = some loc →
      libGetApiUrl e =
        envOr e.nextPublicApiUrl (loc.protocol ++ "//" ++ loc.hostname ++ ":8000")) := by
  refine ⟨rfl, ?_, ?_⟩
  · intro h; simp [libGetApiUrl, h]
  · intro loc h
    cases hn : e.nextPublicApiUrl <;> simp [libGetApiUrl, envOr, h, hn]

/-- C9 witness: a server-side context with INTERNAL_API_URL set. -/
theorem getApiUrl_copies_agree_witness :
    libGetApiUrl ⟨none, some "http://api:9000", none⟩ = "http://api:9000" := by
  have h := (getApiUrl_copies_agree ⟨none, some "http://api:9000", none⟩).2.1 rfl
  simpa [envOr] using h

/-- A metric key has a nonnegative index exactly when it appears in
METRIC_ORDER. -/
theorem metricIndex_nonneg_iff (k : String) :
    0 ≤ metricIndex k ↔ k ∈ METRIC_ORDER := by
  constructor
  · intro h0
    by_contra hm
    have hnone : METRIC_ORDER.indexOf? k = none := by
      refine List.indexOf?_eq_none_iff.2 (fun x hx hbeq => hm ?_)
      have hxk : x = k := by simpa using hbeq
      rwa [hxk] at hx
    rw [metricIndex, hnone] at h0
    norm_num at h0
  · intro hm
    cases h : METRIC_ORDER.indexOf? k with
    | none =>
      exfalso
      have := List.indexOf?_eq_none_iff.1 h k hm
      simp at this
    | some i =>
      rw [metricIndex, h]
      exact Int.ofNat_nonneg i

/-- C10: in the sorted target list, METRIC_ORDER positions never decrease
(so two targets whose keys are both listed appear in list order), and a
target with a listed key is never followed by one with an unlisted key
(so every unlisted key sits before all listed ones). -/
theorem sortedTargets_spec (ts : List TargetRange)
    (i j : Fin (sortedTargets ts).length) (hij : i < j) :
    metricIndex ((sortedTargets ts).get i).metricKey ≤
      metricIndex ((sortedTargets ts).get j).metricKey ∧
    (((sortedTargets ts).get i).metricKey ∈ METRIC_ORDER →
      ((sortedTargets ts).get j).metricKey ∈ METRIC_ORDER) := by
  have hs : List.Sorted targetLe (sortedTargets ts) :=
    List.sorted_insertionSort targetLe ts
  have hle : targetLe ((sortedTargets ts).get i) ((sortedTargets ts).get j) :=
    hs.rel_get_of_lt hij
  refine ⟨hle, fun hmem => ?_⟩
  have h1 : 0 ≤ metricIndex ((sortedTargets ts).get i).metricKey :=
    (metricIndex_nonneg_iff _).2 hmem
  exact (metricIndex_nonneg_iff _).1 (le_trans h1 hle)

/-- C10 witness: soil_ph sorts after air_temperature_c, and an unlisted
key sorts first. -/
theorem sortedTargets_spec_witness :
    metricIndex ((sortedTargets
        [⟨"soil_ph", 1⟩, ⟨"mystery_metric", 2⟩, ⟨"air_temperature_c", 3⟩]).get
          ⟨0, by decide⟩).metricKey ≤
      metricIndex ((sortedTargets
        [⟨"soil_ph", 1⟩, ⟨"mystery_metric", 2⟩, ⟨"air_temperature_c", 3⟩]).get
          ⟨2, by decide⟩).metricKey :=
  (sortedTargets_spec [⟨"soil_ph", 1⟩, ⟨"mystery_metric", 2⟩, ⟨"air_temperature_c", 3⟩]
    ⟨0, by decide⟩ ⟨2, by decide⟩ (by decide)).1

/-- C5: every export job transition is one of the documented four, and a
job in the done or failed state never moves again -- in particular a done
job's artifact location never changes. -/
theorem export_job_lifecycle (a b : ExportJob) (hs : JobSteps a b) :
    (∀ j j2, JobStep j j2 →
      (j.status = JobStatus.pending ∧ j2.status = JobStatus.running) ∨
      (j.status = JobStatus.running ∧ j2.status = JobStatus.done) ∨
      (j.status = JobStatus.running ∧ j2.status = JobStatus.failed) ∨
      (j.status = JobStatus.pending ∧ j2.status = JobStatus.canceled)) ∧
    (a.status = JobStatus.done → b = a) ∧
    (a.status = JobStatus.failed → b = a) ∧
    (a.status = JobStatus.done → b.artifact = a.artifact) := by
  have hstep : ∀ j j2 : ExportJob, JobStep j j2 →
      (j.status = JobStatus.pending ∧ j2.status = JobStatus.running) ∨
      (j.status = JobStatus.running ∧ j2.status = JobStatus.done) ∨
      (j.status = JobStatus.running ∧ j2.status = JobStatus.failed) ∨
      (j.status = JobStatus.pending ∧ j2.status = JobStatus.canceled) := by
    intro j j2 h
    cases h with
    | claim hst => exact Or.inl ⟨hst, rfl⟩
    | finish loc hst => exact Or.inr (Or.inl ⟨hst, rfl⟩)
    | fail hst => exact Or.inr (Or.inr (Or.inl ⟨hst, rfl⟩))
    | cancel hst => exact Or.inr (Or.inr (Or.inr ⟨hst, rfl⟩))
  have key : (a.status = JobStatus.done ∨ a.status = JobStatus.failed) → b = a := by
    induction hs with
    | refl => intro _; rfl
    | tail hs2 hstep2 ih =>
      intro hd
      have hb := ih hd
      subst hb
      rcases hd with hd | hd <;> cases hstep2 <;> simp_all
  exact ⟨hstep, fun h => key (Or.inl h), fun h => key (Or.inr h),
    fun h => by rw [key (Or.inl h)]⟩

/-- C5 witness: the pending-to-running claim on a concrete job, and a
finished job's artifact staying put across an empty run. -/
theorem export_job_lifecycle_witness :
    (((⟨JobStatus.pending, none⟩ : ExportJob).status = JobStatus.pending ∧
      (⟨JobStatus.running, none⟩ : ExportJob).status = JobStatus.running) ∨
     ((⟨JobStatus.pending, none⟩ : ExportJob).status = JobStatus.running ∧
      (⟨JobStatus.running, none⟩ : ExportJob).status = JobStatus.done) ∨
     ((⟨JobStatus.pending, none⟩ : ExportJob).status = JobStatus.running ∧
      (⟨JobStatus.running, none⟩ : ExportJob).status = JobStatus.failed) ∨
     ((⟨JobStatus.pending, none⟩ : ExportJob).status = JobStatus.pending ∧
      (⟨JobStatus.running, none⟩ : ExportJob).status = JobStatus.canceled)) ∧
    (⟨JobStatus.done, some "s3://exports/a.csv"⟩ : ExportJob).artifact =
      some "s3://exports/a.csv" := by
  constructor
  · exact (export_job_lifecycle ⟨JobStatus.done, some "s3://exports/a.csv"⟩ _
      (JobSteps.refl _)).1 ⟨JobStatus.pending, none⟩ ⟨JobStatus.running, none⟩
      (JobStep.claim ⟨JobStatus.pending, none⟩ rfl)
  · exact (export_job_lifecycle ⟨JobStatus.done, some "s3://exports/a.csv"⟩ _
      (JobSteps.refl _)).2.2.2 rfl

/-- C7: the export artifact depends only on the requested channels, time
range and resampling spec together with the data set -- two requests that
agree on those, run against the same store, yield identical artifacts. -/
theorem export_deterministic (r1 r2 : ExportRequest)
    (store : List ((Nat × Int) × Rat))
    (hc : r1.channels = r2.channels) (hf : r1.fromTs = r2.fromTs)
    (ht : r1.toTs = r2.toTs) (hr : r1.resample = r2.resample) :
    runExport r1 store = runExport r2 store := by
  unfold runExport
  rw [hc, hf, ht, hr]

/-- C7 witness: two requests differing only in job id. -/
theorem export_deterministic_witness :
    runExport ⟨1, [7], 0, 120, 60⟩ [((7, 30), 5)] =
      runExport ⟨2, [7], 0, 120, 60⟩ [((7, 30), 5)] :=
  export_deterministic ⟨1, [7], 0, 120, 60⟩ ⟨2, [7], 0, 120, 60⟩
    [((7, 30), 5)] rfl rfl rfl rfl

/-- One race step preserves the race invariant. -/
theorem raceStep_inv {m : Nat} {s s2 : RaceState} (h : RaceStep s s2)
    (hi : RaceInv m s) : RaceInv m s2 := by
  obtain ⟨hlen, hnone, hsome⟩ := hi
  cases h with
  | lookupHit i hlt c hp ht =>
    refine ⟨by simpa using hlen, ?_, ?_⟩
    · intro hn; rw [ht] at hn; exact Option.noConfusion hn
    · intro c2 hc2
      obtain ⟨hcr, hall⟩ := hsome c2 hc2
      refine ⟨hcr, ?_⟩
      intro p hp2 d hpd
      rcases List.mem_or_eq_of_mem_set hp2 with hmem | heq
      · exact hall p hmem d hpd
      · rw [heq] at hpd
        have hcc : c = c2 := by
          rw [ht] at hc2; exact Option.some.inj hc2
        have hcd : c = d := ProcState.done.inj hpd
        rw [← hcd, hcc]
  | lookupMiss i hlt hp ht =>
    refine ⟨by simpa using hlen, ?_, ?_⟩
    · intro _
      obtain ⟨hcr, hall⟩ := hnone ht
      refine ⟨hcr, ?_⟩
      intro p hp2
      rcases List.mem_or_eq_of_mem_set hp2 with hmem | heq
      · exact hall p hmem
      · exact Or.inr heq
    · intro c2 hc2; rw [ht] at hc2; exact Option.noConfusion hc2
  | insertOk i hlt hp ht =>
    obtain ⟨hcr, hall⟩ := hnone ht
    refine ⟨by simpa using hlen, ?_, ?_⟩
    · intro hn; exact Option.noConfusion hn
    · intro c2 hc2
      have hcc : s.nextId = c2 := Option.some.inj hc2
      refine ⟨by show s.created + 1 = 1; rw [hcr], ?_⟩
      intro p hp2 d hpd
      rcases List.mem_or_eq_of_mem_set hp2 with hmem | heq
      · rcases hall p hmem with h1 | h1 <;> rw [h1] at hpd <;> exact ProcState.noConfusion hpd
      · rw [heq] at hpd
        have := ProcState.done.inj hpd
        rw [← this, hcc]
  | insertConflict i hlt c hp ht =>
    refine ⟨by simpa using hlen, ?_, ?_⟩
    · intro hn; rw [ht] at hn; exact Option.noConfusion hn
    · intro c2 hc2
      obtain ⟨hcr, hall⟩ := hsome c2 hc2
      refine ⟨hcr, ?_⟩
      intro p hp2 d hpd
      rcases List.mem_or_eq_of_mem_set hp2 with hmem | heq
      · exact hall p hmem d hpd
      · rw [heq] at hpd; exact ProcState.noConfusion hpd
  | reread i hlt c hp ht =>
    refine ⟨by simpa using hlen, ?_, ?_⟩
    · intro hn; rw [ht] at hn; exact Option.noConfusion hn
    · intro c2 hc2
      obtain ⟨hcr, hall⟩ := hsome c2 hc2
      refine ⟨hcr, ?_⟩
      intro p hp2 d hpd
      rcases List.mem_or_eq_of_mem_set hp2 with hmem | heq
      · exact hall p hmem d hpd
      · rw [heq] at hpd
        have hcc : c = c2 := by rw [ht] at hc2; exact Option.some.inj hc2
        have hcd : c = d := ProcState.done.inj hpd
        rw [← hcd, hcc]

/-- Reachability preserves the race invariant. -/
theorem raceReach_inv {m : Nat} {s s2 : RaceState} (h : RaceReach s s2)
    (hi : RaceInv m s) : RaceInv m s2 := by
  induction h with
  | refl => exact hi
  | tail hs hstep ih => exact raceStep_inv hstep ih

/-- The initial race state satisfies the invariant. -/
theorem initRace_inv (m : Nat) : RaceInv m (initRace m) := by
  refine ⟨by simp [initRace], ?_, ?_⟩
  · intro _
    refine ⟨rfl, ?_⟩
    intro p hp
    exact Or.inl (List.eq_of_mem_replicate hp)
  · intro c hc; exact Option.noConfusion hc

/-- C4: however many resolvers race the first-sight creation of one
(device, metric, subject) triple, once all of them have finished exactly
one creation has happened, the table holds exactly one channel for the
triple, and every resolver returned that channel's id. -/
theorem channel_race_unique (m : Nat) (hm : 0 < m) (s : RaceState)
    (hreach : RaceReach (initRace m) s)
    (hdone : ∀ p ∈ s.procs, ∃ c, p = ProcState.done c) :
    s.created = 1 ∧ ∃ c, s.table = some c ∧
      ∀ p ∈ s.procs, p = ProcState.done c := by
  have hinv : RaceInv m s := raceReach_inv hreach (initRace_inv m)
  obtain ⟨hlen, hnone, hsome⟩ := hinv
  cases ht : s.table with
  | none =>
    exfalso
    obtain ⟨hc0, hall⟩ := hnone ht
    have hne : s.procs ≠ [] := by
      intro h0; rw [h0] at hlen; simp at hlen; omega
    obtain ⟨p, hp⟩ := List.exists_mem_of_ne_nil s.procs hne
    obtain ⟨c, hpc⟩ := hdone p hp
    rcases hall p hp with h1 | h1 <;> rw [hpc] at h1 <;> exact ProcState.noConfusion h1
  | some c =>
    obtain ⟨h1, hall⟩ := hsome c ht
    refine ⟨h1, c, rfl, ?_⟩
    intro p hp
    obtain ⟨d, hd⟩ := hdone p hp
    rw [hd, hall p hp d hd]

/-- C4 witness: two racing resolvers; the first one inserts, the second
looks the winner's row up; both finish with channel 1 and one creation. -/
theorem channel_race_unique_witness :
    (⟨some 1, 1, 1, [ProcState.done 1, ProcState.done 1]⟩ : RaceState).created = 1 ∧
    ∃ c, (⟨some 1, 1, 1, [ProcState.done 1, ProcState.done 1]⟩ : RaceState).table = some c ∧
      ∀ p ∈ (⟨some 1, 1, 1, [ProcState.done 1, ProcState.done 1]⟩ : RaceState).procs,
        p = ProcState.done c := by
  have h1 : RaceStep (initRace 2)
      ⟨none, 0, 1, [ProcState.inserting, ProcState.start]⟩ :=
    RaceStep.lookupMiss (initRace 2) 0 (by decide) rfl rfl
  have h2 : RaceStep (⟨none, 0, 1, [ProcState.inserting, ProcState.start]⟩ : RaceState)
      ⟨some 1, 1, 1, [ProcState.done 1, ProcState.start]⟩ :=
    RaceStep.insertOk ⟨none, 0, 1, [ProcState.inserting, ProcState.start]⟩ 0
      (by decide) rfl rfl
  have h3 : RaceStep (⟨some 1, 1, 1, [ProcState.done 1, ProcState.start]⟩ : RaceState)
      ⟨some 1, 1, 1, [ProcState.done 1, ProcState.done 1]⟩ :=
    RaceStep.lookupHit ⟨some 1, 1, 1, [ProcState.done 1, ProcState.start]⟩ 1
      (by decide) 1 rfl rfl
  have hreach : RaceReach (initRace 2)
      ⟨some 1, 1, 1, [ProcState.done 1, ProcState.done 1]⟩ :=
    RaceReach.tail (RaceReach.tail (RaceReach.tail (RaceReach.refl _) h1) h2) h3
  refine channel_race_unique 2 (by decide) _ hreach ?_
  intro p hp
  have hp1 : p = ProcState.done 1 := by simpa using hp
  exact ⟨1, hp1⟩

/-- Lookup of a just-inserted key. -/
theorem alookup_cons_self {α β : Type} [DecidableEq α] (l : List (α × β))
    (k : α) (v : β) : alookup ((k, v) :: l) k = some v := by
  simp [alookup]

/-- Lookup past a different key. -/
theorem alookup_cons_ne {α β : Type} [DecidableEq α] (l : List (α × β))
    (k1 k : α) (v : β) (h : k1 ≠ k) : alookup ((k1, v) :: l) k = alookup l k := by
  simp [alookup, h]

/-- Removing every entry of one key leaves every other lookup unchanged. -/
theorem alookup_filter_ne {α β : Type} [DecidableEq α] (store : List (α × β))
    (k0 k : α) (h : k ≠ k0) :
    alookup (store.filter (fun e => e.1 ≠ k0)) k = alookup store k := by
  induction store with
  | nil => rfl
  | cons e rest ih =>
    by_cases he : e.1 = k0
    · rw [List.filter_cons, if_neg (by simp [he])]
      rw [ih]
      simp only [alookup]
      rw [if_neg (show ¬e.1 = k by rw [he]; exact fun hh => h hh.symm)]
    · rw [List.filter_cons, if_pos (by simp [he])]
      simp only [alookup]
      by_cases hek : e.1 = k
      · rw [if_pos hek, if_pos hek]
      · rw [if_neg hek, if_neg hek]; exact ih

/-- A written sample is found at its key. -/
theorem alookup_setSample_self (store : List ((Nat × Int) × Rat)) (c : Nat)
    (t : Int) (v : Rat) : alookup (setSample store c t v) (c, t) = some v := by
  simp [setSample, alookup]

/-- A write leaves every other key's lookup unchanged. -/
theorem alookup_setSample_ne (store : List ((Nat × Int) × Rat)) (c : Nat)
    (t : Int) (v : Rat) (key : Nat × Int) (h : key ≠ (c, t)) :
    alookup (setSample store c t v) key = alookup store key := by
  simp only [setSample, alookup]
  rw [if_neg (fun hh => h hh.symm)]
  exact alookup_filter_ne store (c, t) key h

/-- Channel resolution never touches the sample store. -/
theorem resolveChannel_samples (st : SysState) (dev mk sr : String) :
    (resolveChannel st dev mk sr).2.samples = st.samples := by
  unfold resolveChannel
  cases h : alookup st.channels (dev, mk, sr) <;> simp [h]

/-- Channel resolution never touches the ledger. -/
theorem resolveChannel_ledger (st : SysState) (dev mk sr : String) :
    (resolveChannel st dev mk sr).2.ledger = st.ledger := by
  unfold resolveChannel
  cases h : alookup st.channels (dev, mk, sr) <;> simp [h]

/-- Channel resolution never touches the rollup table. -/
theorem resolveChannel_rollups (st : SysState) (dev mk sr : String) :
    (resolveChannel st dev mk sr).2.rollups = st.rollups := by
  unfold resolveChannel
  cases h : alookup st.channels (dev, mk, sr) <;> simp [h]

/-- After resolution the natural key maps to the returned channel id. -/
theorem resolveChannel_found (st : SysState) (dev mk sr : String) :
    alookup (resolveChannel st dev mk sr).2.channels (dev, mk, sr) =
      some (resolveChannel st dev mk sr).1 := by
  unfold resolveChannel
  cases h : alookup st.channels (dev, mk, sr) with
  | some c => simp [h]
  | none => simp [h, alookup]

/-- Resolution preserves every existing channel binding. -/
theorem resolveChannel_channels_mono (st : SysState) (dev mk sr : String)
    (key : String × String × String) (c : Nat)
    (hk : alookup st.channels key = some c) :
    alookup (resolveChannel st dev mk sr).2.channels key = some c := by
  unfold resolveChannel
  cases h : alookup st.channels (dev, mk, sr) with
  | some c2 => simpa [h]
  | none =>
    simp only [h]
    have hne : (dev, mk, sr) ≠ key := by
      intro he; rw [he, hk] at h; exact Option.noConfusion h
    rw [alookup_cons_ne _ _ _ _ hne]
    exact hk

/-- One gateway step never touches the ledger. -/
theorem ingestSample_ledger (cfg : Config) (dev : String)
    (acc : List SampleStatus × SysState) (s : RawSample) :
    (ingestSample cfg dev acc s).2.ledger = acc.2.ledger := by
  unfold ingestSample
  cases h : validateSample cfg s with
  | some r => rfl
  | none => simpa using resolveChannel_ledger acc.2 dev s.metricKey s.subjectRef

/-- One gateway step never touches the rollup table. -/
theorem ingestSample_rollups (cfg : Config) (dev : String)
    (acc : List SampleStatus × SysState) (s : RawSample) :
    (ingestSample cfg dev acc s).2.rollups = acc.2.rollups := by
  unfold ingestSample
  cases h : validateSample cfg s with
  | some r => rfl
  | none => simpa using resolveChannel_rollups acc.2 dev s.metricKey s.subjectRef

/-- Batch processing never touches the ledger. -/
theorem foldl_ingest_ledger (cfg : Config) (dev : String) :
    ∀ (batch : List RawSample) (acc : List SampleStatus × SysState),
      ((batch.foldl (ingestSample cfg dev) acc).2).ledger = acc.2.ledger := by
  intro batch
  induction batch with
  | nil => intro acc; rfl
  | cons s rest ih =>
    intro acc
    rw [List.foldl_cons, ih]
    exact ingestSample_ledger cfg dev acc s

/-- The status list one gateway step appends. -/
theorem ingestSample_fst (cfg : Config) (dev : String)
    (acc : List SampleStatus × SysState) (s : RawSample) :
    (ingestSample cfg dev acc s).1 = acc.1 ++ [statusOf cfg s] := by
  unfold ingestSample statusOf
  cases h : validateSample cfg s <;> rfl

/-- Batch processing reports one status per sample, in order, each decided
by that sample's validation alone. -/
theorem foldl_ingest_statuses (cfg : Config) (dev : String) :
    ∀ (batch : List RawSample) (acc : List SampleStatus × SysState),
      (batch.foldl (ingestSample cfg dev) acc).1 =
        acc.1 ++ batch.map (statusOf cfg) := by
  intro batch
  induction batch with
  | nil => intro acc; simp
  | cons s rest ih =>
    intro acc
    rw [List.foldl_cons, ih, ingestSample_fst]
    simp

/-- On first sight of a request id with every batch-level check passing,
the gateway runs the pipeline, settles the rollups, and records the
outcome in the ledger. -/
theorem ingest_fresh (cfg : Config) (st : SysState) (cred rid : String)
    (batch : List RawSample) (dev : String)
    (hauth : alookup cfg.auths cred = some dev)
    (hfresh : alookup st.ledger (dev, rid) = none)
    (hrid : rid ≠ "") (hsize : batch.length ≤ cfg.maxBatch)
    (hcoll : ridCollision st.ledger dev rid = false) :
    ingest cfg st cred rid batch =
      (⟨overallStatus (processBatch cfg st dev batch).1,
        (processBatch cfg st dev batch).1⟩,
       { settle cfg (processBatch cfg st dev batch).2 with
         ledger := ((dev, rid),
           (⟨overallStatus (processBatch cfg st dev batch).1,
             (processBatch cfg st dev batch).1⟩ : Outcome)) ::
           (settle cfg (processBatch cfg st dev batch).2).ledger }) := by
  simp only [ingest, hauth, hfresh, hcoll]
  rw [if_neg hrid, if_neg (by omega : ¬cfg.maxBatch < batch.length)]
  simp

/-- A replayed request id returns the recorded outcome and leaves the
state untouched. -/
theorem ingest_replay (cfg : Config) (st : SysState) (cred rid : String)
    (batch : List RawSample) (dev : String) (out : Outcome)
    (hauth : alookup cfg.auths cred = some dev)
    (hhit : alookup st.ledger (dev, rid) = some out) :
    ingest cfg st cred rid batch = (out, st) := by
  simp only [ingest, hauth, hhit]

/-- C1: ingestion is idempotent per request id -- after a first accepted
submission, resubmitting the identical (device, request_id, samples)
triple returns the recorded outcome and leaves the whole stored state
(ledger, channels, samples, rollups) exactly as the first submission left
it; no side effect runs again. -/
theorem ingest_idempotent (cfg : Config) (st : SysState) (cred rid : String)
    (batch : List RawSample) (dev : String)
    (hauth : alookup cfg.auths cred = some dev)
    (hfresh : alookup st.ledger (dev, rid) = none)
    (hrid : rid ≠ "") (hsize : batch.length ≤ cfg.maxBatch)
    (hcoll : ridCollision st.ledger dev rid = false) :
    ingest cfg (ingest cfg st cred rid batch).2 cred rid batch =
      ingest cfg st cred rid batch := by
  rw [ingest_fresh cfg st cred rid batch dev hauth hfresh hrid hsize hcoll]
  exact ingest_replay cfg _ cred rid batch dev _ hauth (alookup_cons_self _ _ _)

/-- C1 witness: a concrete first submission and its replay. -/
theorem ingest_idempotent_witness :
    ingest cfg0 (ingest cfg0 st0 "key1" "r1" [sample0]).2 "key1" "r1" [sample0] =
      ingest cfg0 st0 "key1" "r1" [sample0] :=
  ingest_idempotent cfg0 st0 "key1" "r1" [sample0] "dev1"
    (by decide) (by decide) (by decide) (by decide) (by decide)

/-- The gateway step on a sample that fails validation: the sample alone
is rejected and the state is untouched. -/
theorem ingestSample_invalid (cfg : Config) (dev : String)
    (acc : List SampleStatus × SysState) (s : RawSample) (r : String)
    (hv : validateSample cfg s = some r) :
    ingestSample cfg dev acc s = (acc.1 ++ [SampleStatus.rejected r], acc.2) := by
  unfold ingestSample
  rw [hv]

/-- The gateway step on a valid sample: accepted, channel resolved, sample
written, write marked dirty. -/
theorem ingestSample_valid (cfg : Config) (dev : String)
    (acc : List SampleStatus × SysState) (s : RawSample)
    (hv : validateSample cfg s = none) :
    ingestSample cfg dev acc s =
      (acc.1 ++ [SampleStatus.accepted],
       { (resolveChannel acc.2 dev s.metricKey s.subjectRef).2 with
         samples := setSample
           (resolveChannel acc.2 dev s.metricKey s.subjectRef).2.samples
           (resolveChannel acc.2 dev s.metricKey s.subjectRef).1 s.ts s.value
         dirty := ((resolveChannel acc.2 dev s.metricKey s.subjectRef).1, s.ts) ::
           (resolveChannel acc.2 dev s.metricKey s.subjectRef).2.dirty }) := by
  unfold ingestSample
  rw [hv]

/-- One gateway step preserves every existing channel binding. -/
theorem ingestSample_channels_mono (cfg : Config) (dev : String)
    (acc : List SampleStatus × SysState) (s : RawSample)
    (key : String × String × String) (c : Nat)
    (hk : alookup acc.2.channels key = some c) :
    alookup (ingestSample cfg dev acc s).2.channels key = some c := by
  cases h : validateSample cfg s with
  | some r => rw [ingestSample_invalid cfg dev acc s r h]; exact hk
  | none =>
    rw [ingestSample_valid cfg dev acc s h]
    exact resolveChannel_channels_mono acc.2 dev s.metricKey s.subjectRef key c hk

/-- One gateway step preserves the presence of every stored sample key. -/
theorem ingestSample_samples_mono (cfg : Config) (dev : String)
    (acc : List SampleStatus × SysState) (s : RawSample) (key : Nat × Int)
    (hk : (alookup acc.2.samples key).isSome = true) :
    (alookup (ingestSample cfg dev acc s).2.samples key).isSome = true := by
  cases h : validateSample cfg s with
  | some r => rw [ingestSample_invalid cfg dev acc s r h]; exact hk
  | none =>
    rw [ingestSample_valid cfg dev acc s h]
    by_cases hkey : key = ((resolveChannel acc.2 dev s.metricKey s.subjectRef).1, s.ts)
    · show (alookup (setSample _ _ _ _) key).isSome = true
      rw [hkey, alookup_setSample_self]
      rfl
    · show (alookup (setSample _ _ _ _) key).isSome = true
      rw [alookup_setSample_ne _ _ _ _ _ hkey, resolveChannel_samples]
      exact hk

/-- Batch processing preserves every existing channel binding. -/
theorem foldl_ingest_channels_mono (cfg : Config) (dev : String) :
    ∀ (batch : List RawSample) (acc : List SampleStatus × SysState)
      (key : String × String × String) (c : Nat),
      alookup acc.2.channels key = some c →
      alookup ((batch.foldl (ingestSample cfg dev) acc).2).channels key = some c := by
  intro batch
  induction batch with
  | nil => intro acc key c hk; exact hk
  | cons s rest ih =>
    intro acc key c hk
    rw [List.foldl_cons]
    exact ih _ key c (ingestSample_channels_mono cfg dev acc s key c hk)

/-- Batch processing preserves the presence of every stored sample key. -/
theorem foldl_ingest_samples_mono (cfg : Config) (dev : String) :
    ∀ (batch : List RawSample) (acc : List SampleStatus × SysState)
      (key : Nat × Int),
      (alookup acc.2.samples key).isSome = true →
      (alookup ((batch.foldl (ingestSample cfg dev) acc).2).samples key).isSome = true := by
  intro batch
  induction batch with
  | nil => intro acc key hk; exact hk
  | cons s rest ih =>
    intro acc key hk
    rw [List.foldl_cons]
    exact ih _ key (ingestSample_samples_mono cfg dev acc s key hk)

/-- Every valid sample of a batch ends up written: its channel is bound
and its (channel, timestamp) key is present in the store. -/
theorem foldl_ingest_written (cfg : Config) (dev : String) :
    ∀ (batch : List RawSample) (acc : List SampleStatus × SysState)
      (s : RawSample), s ∈ batch → validateSample cfg s = none →
      ∃ c, alookup ((batch.foldl (ingestSample cfg dev) acc).2).channels
          (dev, s.metricKey, s.subjectRef) = some c ∧
        (alookup ((batch.foldl (ingestSample cfg dev) acc).2).samples
          (c, s.ts)).isSome = true := by
  intro batch
  induction batch with
  | nil => intro acc s hs; exact absurd hs (List.not_mem_nil s)
  | cons s0 rest ih =>
    intro acc s hs hv
    rw [List.foldl_cons]
    rcases List.mem_cons.1 hs with rfl | hmem
    · rw [ingestSample_valid cfg dev acc s hv]
      refine ⟨(resolveChannel acc.2 dev s.metricKey s.subjectRef).1, ?_, ?_⟩
      · apply foldl_ingest_channels_mono
        exact resolveChannel_found acc.2 dev s.metricKey s.subjectRef
      · apply foldl_ingest_samples_mono
        show (alookup (setSample _ _ _ _) _).isSome = true
        rw [alookup_setSample_self]
        rfl
    · exact ih _ s hmem hv

/-- C6: per-sample failures are isolated. An authentication failure or an
oversized batch rejects the whole batch with the state untouched (no side
effect); otherwise, on first sight, every sample's reported status is
decided by its own validation alone, and every valid sample is written
even when other samples of the batch are rejected. -/
theorem per_sample_isolation (cfg : Config) (st : SysState) (cred rid : String)
    (batch : List RawSample) :
    (alookup cfg.auths cred = none →
      ingest cfg st cred rid batch = (⟨BatchStatus.rejectedBatch, []⟩, st)) ∧
    (∀ dev, alookup cfg.auths cred = some dev →
      alookup st.ledger (dev, rid) = none → cfg.maxBatch < batch.length →
      ingest cfg st cred rid batch = (⟨BatchStatus.rejectedBatch, []⟩, st)) ∧
    (∀ dev, alookup cfg.auths cred = some dev →
      alookup st.ledger (dev, rid) = none → rid ≠ "" →
      batch.length ≤ cfg.maxBatch → ridCollision st.ledger dev rid = false →
      (ingest cfg st cred rid batch).1.perSample = batch.map (statusOf cfg) ∧
      (∀ s ∈ batch, validateSample cfg s = none →
        ∃ c, alookup (ingest cfg st cred rid batch).2.channels
            (dev, s.metricKey, s.subjectRef) = some c ∧
          (alookup (ingest cfg st cred rid batch).2.samples (c, s.ts)).isSome = true)) := by
  refine ⟨?_, ?_, ?_⟩
  · intro hauth
    simp only [ingest, hauth]
  · intro dev hauth hfresh hsize
    simp only [ingest, hauth, hfresh]
    by_cases hr : rid = ""
    · rw [if_pos hr]
    · rw [if_neg hr, if_pos hsize]
  · intro dev hauth hfresh hrid hsize hcoll
    rw [ingest_fresh cfg st cred rid batch dev hauth hfresh hrid hsize hcoll]
    constructor
    · show (processBatch cfg st dev batch).1 = batch.map (statusOf cfg)
      unfold processBatch
      rw [foldl_ingest_statuses]
      simp
    · intro s hs hv
      obtain ⟨c, hc, hw⟩ := foldl_ingest_written cfg dev batch ([], st) s hs hv
      exact ⟨c, hc, hw⟩

/-- C6 witness: a batch holding one valid and one invalid sample -- the
valid one is accepted, the invalid one alone is rejected. -/
theorem per_sample_isolation_witness :
    (ingest cfg0 st0 "key1" "r1" [sample0, sampleBad]).1.perSample =
      [SampleStatus.accepted, SampleStatus.rejected "unrecognized metric"] := by
  have h := ((per_sample_isolation cfg0 st0 "key1" "r1" [sample0, sampleBad]).2.2
    "dev1" (by decide) (by decide) (by decide) (by decide) (by decide)).1
  rw [h]
  rfl

/-- Overwriting a key twice is the same as writing the final value once:
the overwritten value leaves no trace in the store. -/
theorem setSample_setSample (store : List ((Nat × Int) × Rat)) (c : Nat)
    (T : Int) (v1 v2 : Rat) :
    setSample (setSample store c T v1) c T v2 = setSample store c T v2 := by
  unfold setSample
  rw [List.filter_cons, if_neg (by simp), List.filter_filter]
  simp

/-- Membership in a bucket's raw samples, characterized. -/
theorem mem_bucketSamples (store : List ((Nat × Int) × Rat)) (c : Nat)
    (w b t : Int) (u : Rat) :
    (t, u) ∈ bucketSamples store c w b ↔
      ((c, t), u) ∈ store ∧ b ≤ t ∧ t < b + w := by
  unfold bucketSamples
  constructor
  · intro h
    obtain ⟨⟨⟨ec, et⟩, ev⟩, he, heq⟩ := List.mem_map.1 h
    obtain ⟨hmem, hp⟩ := List.mem_filter.1 he
    simp only [decide_eq_true_eq] at hp
    obtain ⟨hc, hb2, hw2⟩ := hp
    injection heq with h1 h2
    subst h1
    subst h2
    subst hc
    exact ⟨hmem, hb2, hw2⟩
  · rintro ⟨hmem, hb2, hw2⟩
    refine List.mem_map.2 ⟨((c, t), u), List.mem_filter.2 ⟨hmem, ?_⟩, rfl⟩
    simp [hb2, hw2]

/-- C2: after a later accepted write of v2 at an existing (channel, T),
the stored value at (channel, T) is v2 and the history is as if only v2
had ever been written there, so every rollup bucket covering T recomputes
to reflect v2 and not the overwritten v1; and within one batch the write
later in batch order wins. -/
theorem overwrite_semantics (store : List ((Nat × Int) × Rat)) (c : Nat)
    (T : Int) (v1 v2 : Rat) (w b : Int) (hb : b ≤ T) (hw : T < b + w) :
    alookup (setSample (setSample store c T v1) c T v2) (c, T) = some v2 ∧
    setSample (setSample store c T v1) c T v2 = setSample store c T v2 ∧
    writeSamples store [((c, T), v1), ((c, T), v2)] = setSample store c T v2 ∧
    (T, v2) ∈ bucketSamples (setSample (setSample store c T v1) c T v2) c w b ∧
    (∀ u, (T, u) ∈ bucketSamples (setSample (setSample store c T v1) c T v2) c w b →
      u = v2) := by
  have hcollapse : setSample (setSample store c T v1) c T v2 = setSample store c T v2 :=
    setSample_setSample store c T v1 v2
  refine ⟨alookup_setSample_self _ _ _ _, hcollapse, hcollapse, ?_, ?_⟩
  · rw [hcollapse]
    exact (mem_bucketSamples _ _ _ _ _ _).2 ⟨List.mem_cons_self _ _, hb, hw⟩
  · intro u hu
    rw [hcollapse] at hu
    obtain ⟨hmem, _, _⟩ := (mem_bucketSamples _ _ _ _ _ _).1 hu
    rcases List.mem_cons.1 hmem with heq | hmem2
    · exact congrArg Prod.snd heq
    · exfalso
      have h3 := List.mem_filter.1 hmem2
      simp at h3

/-- C2 witness: writing 5 then 7 at one timestamp stores 7. -/
theorem overwrite_semantics_witness :
    alookup (setSample (setSample [] 7 100 5) 7 100 7) (7, 100) = some 7 :=
  (overwrite_semantics [] 7 100 5 7 60 60 (by decide) (by decide)).1

/-- A timestamp covered by an aligned bucket buckets to its start. -/
theorem bucketStart_eq_of_cover (w b t : Int) (hw : 0 < w) (hal : b % w = 0)
    (hb : b ≤ t) (ht : t < b + w) : bucketStart w t = b := by
  obtain ⟨q, hq⟩ := Int.dvd_of_emod_eq_zero hal
  have hwq : w * q = b := hq.symm
  have hfd : t.fdiv w = t / w := Int.fdiv_eq_ediv t (le_of_lt hw)
  have hr0 : 0 ≤ t - w * q := by rw [hwq]; omega
  have hrw : t - w * q < w := by rw [hwq]; omega
  have ht2 : t = (t - w * q) + w * q := by ring
  have hdiv : t / w = q := by
    conv_lhs => rw [ht2]
    rw [Int.add_mul_ediv_left _ q (show w ≠ 0 by omega)]
    rw [Int.ediv_eq_zero_of_lt hr0 hrw]
    simp
  unfold bucketStart
  rw [hfd, hdiv, hwq]

/-- Building a dirty-bucket key. -/
theorem mem_dirtyBuckets_of (windows : List Int) (d : List (Nat × Int))
    (p : Nat × Int) (w : Int) (hp : p ∈ d) (hw : w ∈ windows) :
    (p.1, w, bucketStart w p.2) ∈ dirtyBuckets windows d := by
  unfold dirtyBuckets
  rw [List.mem_flatten]
  refine ⟨windows.map (fun w2 => (p.1, w2, bucketStart w2 p.2)), ?_, ?_⟩
  · exact List.mem_map.2 ⟨p, hp, rfl⟩
  · exact List.mem_map.2 ⟨w, hw, rfl⟩

/-- Destructing a dirty-bucket key. -/
theorem of_mem_dirtyBuckets (windows : List Int) (d : List (Nat × Int))
    (k : Nat × Int × Int) (hk : k ∈ dirtyBuckets windows d) :
    ∃ p ∈ d, ∃ w ∈ windows, k = (p.1, w, bucketStart w p.2) := by
  unfold dirtyBuckets at hk
  rw [List.mem_flatten] at hk
  obtain ⟨l, hl, hkl⟩ := hk
  obtain ⟨p, hp, rfl⟩ := List.mem_map.1 hl
  obtain ⟨w, hw, hkw⟩ := List.mem_map.1 hkl
  exact ⟨p, hp, w, hw, hkw.symm⟩

/-- Every dirty-bucket key is aligned to a maintained window. -/
theorem dirtyBuckets_goodKey (cfg : Config) (d : List (Nat × Int))
    (k : Nat × Int × Int) (hk : k ∈ dirtyBuckets cfg.windows d) :
    goodKey cfg k := by
  obtain ⟨p, hp, w, hw, rfl⟩ := of_mem_dirtyBuckets cfg.windows d k hk
  exact ⟨hw, Int.mul_emod_right w _⟩

/-- Growing the dirty list keeps every dirty-bucket key. -/
theorem dirtyBuckets_mono_cons (windows : List Int) (d : List (Nat × Int))
    (p : Nat × Int) (k : Nat × Int × Int) (hk : k ∈ dirtyBuckets windows d) :
    k ∈ dirtyBuckets windows (p :: d) := by
  obtain ⟨p2, hp2, w, hw, rfl⟩ := of_mem_dirtyBuckets windows d k hk
  exact mem_dirtyBuckets_of windows (p :: d) p2 w (List.mem_cons_of_mem p hp2) hw

/-- A write into a bucket that does not cover it leaves the bucket's raw
samples unchanged. -/
theorem bucketSamples_setSample_ne (store : List ((Nat × Int) × Rat))
    (c0 : Nat) (t0 : Int) (v : Rat) (c : Nat) (w b : Int)
    (h : ¬(c = c0 ∧ b ≤ t0 ∧ t0 < b + w)) :
    bucketSamples (setSample store c0 t0 v) c w b = bucketSamples store c w b := by
  unfold setSample bucketSamples
  rw [List.filter_cons]
  rw [if_neg (by
    simp only [decide_eq_true_eq]
    intro hcon
    exact h ⟨hcon.1.symm, hcon.2⟩)]
  rw [List.filter_filter]
  congr 1
  apply List.filter_congr
  intro e he
  by_cases hbp : (e.1.1 = c ∧ b ≤ e.1.2 ∧ e.1.2 < b + w)
  · have hne : e.1 ≠ (c0, t0) := by
      intro heq
      apply h
      have h1 : e.1.1 = c0 := by rw [heq]
      have h2 : e.1.2 = t0 := by rw [heq]
      refine ⟨?_, ?_, ?_⟩
      · rw [← hbp.1, h1]
      · rw [← h2]; exact hbp.2.1
      · rw [← h2]; exact hbp.2.2
    simp [hbp, hne]
  · simp [hbp]

/-- Channel resolution never touches the dirty list. -/
theorem resolveChannel_dirty (st : SysState) (dev mk sr : String) :
    (resolveChannel st dev mk sr).2.dirty = st.dirty := by
  unfold resolveChannel
  cases h : alookup st.channels (dev, mk, sr) <;> simp [h]

/-- Folding samples into an aggregate adds to the count. -/
theorem foldl_push_count : ∀ (rest : List (Int × Rat)) (a0 : Agg),
    (rest.foldl (fun x p => x.push p.1 p.2) a0).count = a0.count + rest.length := by
  intro rest
  induction rest with
  | nil => intro a0; rfl
  | cons p rest ih =>
    intro a0
    rw [List.foldl_cons, ih]
    show a0.count + 1 + rest.length = a0.count + (rest.length + 1)
    omega

/-- Folding samples into an aggregate adds to the sum. -/
theorem foldl_push_sum : ∀ (rest : List (Int × Rat)) (a0 : Agg),
    (rest.foldl (fun x p => x.push p.1 p.2) a0).sum =
      a0.sum + (rest.map Prod.snd).sum := by
  intro rest
  induction rest with
  | nil => intro a0; simp
  | cons p rest ih =>
    intro a0
    rw [List.foldl_cons, ih]
    show a0.sum + p.2 + (rest.map Prod.snd).sum =
      a0.sum + ((p :: rest).map Prod.snd).sum
    rw [List.map_cons, List.sum_cons]
    ring

/-- The folded minimum never rises. -/
theorem foldl_push_min_le : ∀ (rest : List (Int × Rat)) (a0 : Agg),
    (rest.foldl (fun x p => x.push p.1 p.2) a0).minv ≤ a0.minv := by
  intro rest
  induction rest with
  | nil => intro a0; exact le_refl _
  | cons p rest ih =>
    intro a0
    rw [List.foldl_cons]
    exact le_trans (ih _) (min_le_left _ _)

/-- The folded minimum bounds every folded sample. -/
theorem foldl_push_min_mem_le : ∀ (rest : List (Int × Rat)) (a0 : Agg),
    ∀ p ∈ rest, (rest.foldl (fun x p2 => x.push p2.1 p2.2) a0).minv ≤ p.2 := by
  intro rest
  induction rest with
  | nil => intro a0 p hp; exact absurd hp (List.not_mem_nil p)
  | cons p0 rest ih =>
    intro a0 p hp
    rw [List.foldl_cons]
    rcases List.mem_cons.1 hp with heq | hmem
    · rw [heq]
      exact le_trans (foldl_push_min_le rest _) (min_le_right _ _)
    · exact ih _ p hmem

/-- The folded minimum is the seed's or one of the folded values. -/
theorem foldl_push_min_mem : ∀ (rest : List (Int × Rat)) (a0 : Agg),
    (rest.foldl (fun x p => x.push p.1 p.2) a0).minv = a0.minv ∨
    (rest.foldl (fun x p => x.push p.1 p.2) a0).minv ∈ rest.map Prod.snd := by
  intro rest
  induction rest with
  | nil => intro a0; exact Or.inl rfl
  | cons p rest ih =>
    intro a0
    rw [List.foldl_cons]
    rcases ih (a0.push p.1 p.2) with heq | hmem
    · rcases min_choice a0.minv p.2 with hc | hc
      · exact Or.inl (heq.trans hc)
      · refine Or.inr ?_
        rw [List.map_cons]
        rw [heq]
        show min a0.minv p.2 ∈ p.2 :: rest.map Prod.snd
        rw [hc]
        exact List.mem_cons_self _ _
    · refine Or.inr ?_
      rw [List.map_cons]
      exact List.mem_cons_of_mem _ hmem

/-- The folded maximum never falls. -/
theorem foldl_push_max_le : ∀ (rest : List (Int × Rat)) (a0 : Agg),
    a0.maxv ≤ (rest.foldl (fun x p => x.push p.1 p.2) a0).maxv := by
  intro rest
  induction rest with
  | nil => intro a0; exact le_refl _
  | cons p rest ih =>
    intro a0
    rw [List.foldl_cons]
    exact le_trans (le_max_left _ _) (ih _)

/-- The folded maximum bounds every folded sample. -/
theorem foldl_push_max_mem_le : ∀ (rest : List (Int × Rat)) (a0 : Agg),
    ∀ p ∈ rest, p.2 ≤ (rest.foldl (fun x p2 => x.push p2.1 p2.2) a0).maxv := by
  intro rest
  induction rest with
  | nil => intro a0 p hp; exact absurd hp (List.not_mem_nil p)
  | cons p0 rest ih =>
    intro a0 p hp
    rw [List.foldl_cons]
    rcases List.mem_cons.1 hp with heq | hmem
    · rw [heq]
      exact le_trans (le_max_right _ _) (foldl_push_max_le rest _)
    · exact ih _ p hmem

/-- The folded maximum is the seed's or one of the folded values. -/
theorem foldl_push_max_mem : ∀ (rest : List (Int × Rat)) (a0 : Agg),
    (rest.foldl (fun x p => x.push p.1 p.2) a0).maxv = a0.maxv ∨
    (rest.foldl (fun x p => x.push p.1 p.2) a0).maxv ∈ rest.map Prod.snd := by
  intro rest
  induction rest with
  | nil => intro a0; exact Or.inl rfl
  | cons p rest ih =>
    intro a0
    rw [List.foldl_cons]
    rcases ih (a0.push p.1 p.2) with heq | hmem
    · rcases max_choice a0.maxv p.2 with hc | hc
      · exact Or.inl (heq.trans hc)
      · refine Or.inr ?_
        rw [List.map_cons]
        rw [heq]
        show max a0.maxv p.2 ∈ p.2 :: rest.map Prod.snd
        rw [hc]
        exact List.mem_cons_self _ _
    · refine Or.inr ?_
      rw [List.map_cons]
      exact List.mem_cons_of_mem _ hmem

/-- The folded last timestamp never falls. -/
theorem foldl_push_lastTs_le : ∀ (rest : List (Int × Rat)) (a0 : Agg),
    a0.lastTs ≤ (rest.foldl (fun x p => x.push p.1 p.2) a0).lastTs := by
  intro rest
  induction rest with
  | nil => intro a0; exact le_refl _
  | cons p rest ih =>
    intro a0
    rw [List.foldl_cons]
    refine le_trans ?_ (ih (a0.push p.1 p.2))
    show a0.lastTs ≤ if a0.lastTs < p.1 then p.1 else a0.lastTs
    split
    · omega
    · exact le_refl _

/-- The folded last sample is the seed's or one of the folded samples. -/
theorem foldl_push_last_mem : ∀ (rest : List (Int × Rat)) (a0 : Agg),
    ((rest.foldl (fun x p => x.push p.1 p.2) a0).lastTs = a0.lastTs ∧
     (rest.foldl (fun x p => x.push p.1 p.2) a0).lastVal = a0.lastVal) ∨
    ((rest.foldl (fun x p => x.push p.1 p.2) a0).lastTs,
     (rest.foldl (fun x p => x.push p.1 p.2) a0).lastVal) ∈ rest := by
  intro rest
  induction rest with
  | nil => intro a0; exact Or.inl ⟨rfl, rfl⟩
  | cons p rest ih =>
    intro a0
    rw [List.foldl_cons]
    rcases ih (a0.push p.1 p.2) with ⟨h1, h2⟩ | hmem
    · by_cases hlt : a0.lastTs < p.1
      · refine Or.inr ?_
        rw [h1, h2]
        show ((if a0.lastTs < p.1 then p.1 else a0.lastTs),
          (if a0.lastTs < p.1 then p.2 else a0.lastVal)) ∈ p :: rest
        rw [if_pos hlt, if_pos hlt]
        exact List.mem_cons_self _ _
      · refine Or.inl ?_
        constructor
        · rw [h1]
          show (if a0.lastTs < p.1 then p.1 else a0.lastTs) = a0.lastTs
          rw [if_neg hlt]
        · rw [h2]
          show (if a0.lastTs < p.1 then p.2 else a0.lastVal) = a0.lastVal
          rw [if_neg hlt]
    · exact Or.inr (List.mem_cons_of_mem _ hmem)

/-- The folded last timestamp bounds every folded sample's timestamp. -/
theorem foldl_push_last_ub : ∀ (rest : List (Int × Rat)) (a0 : Agg),
    ∀ p ∈ rest, p.1 ≤ (rest.foldl (fun x p2 => x.push p2.1 p2.2) a0).lastTs := by
  intro rest
  induction rest with
  | nil => intro a0 p hp; exact absurd hp (List.not_mem_nil p)
  | cons p0 rest ih =>
    intro a0 p hp
    rw [List.foldl_cons]
    rcases List.mem_cons.1 hp with heq | hmem
    · rw [heq]
      refine le_trans ?_ (foldl_push_lastTs_le rest (a0.push p0.1 p0.2))
      show p0.1 ≤ if a0.lastTs < p0.1 then p0.1 else a0.lastTs
      split
      · exact le_refl _
      · omega
    · exact ih _ p hmem

/-- The recomputed aggregate of a nonempty bucket satisfies the direct
reference formulas: its count is the sample count, its sum the value sum,
its min and max are attained bounds, its mean the sum over the count, and
its last sample is an attained timestamp bound. -/
theorem mkAgg_spec (l : List (Int × Rat)) (a : Agg) (h : mkAgg l = some a) :
    a.count = l.length ∧
    a.sum = (l.map Prod.snd).sum ∧
    a.minv ∈ l.map Prod.snd ∧ (∀ p ∈ l, a.minv ≤ p.2) ∧
    a.maxv ∈ l.map Prod.snd ∧ (∀ p ∈ l, p.2 ≤ a.maxv) ∧
    a.mean = (l.map Prod.snd).sum / (l.length : Rat) ∧
    (a.lastTs, a.lastVal) ∈ l ∧ (∀ p ∈ l, p.1 ≤ a.lastTs) := by
  cases l with
  | nil => exact absurd h (by simp [mkAgg])
  | cons e rest =>
    have ha : rest.foldl (fun x p => x.push p.1 p.2) (Agg.single e.1 e.2) = a :=
      Option.some.inj h
    subst ha
    refine ⟨?_, ?_, ?_, ?_, ?_, ?_, ?_, ?_, ?_⟩
    · rw [foldl_push_count]
      show 1 + rest.length = rest.length + 1
      omega
    · rw [foldl_push_sum]
      show e.2 + (rest.map Prod.snd).sum = ((e :: rest).map Prod.snd).sum
      rw [List.map_cons, List.sum_cons]
    · rcases foldl_push_min_mem rest (Agg.single e.1 e.2) with heq | hmem
      · rw [heq]
        show e.2 ∈ (e :: rest).map Prod.snd
        rw [List.map_cons]
        exact List.mem_cons_self _ _
      · rw [List.map_cons]
        exact List.mem_cons_of_mem _ hmem
    · intro p hp
      rcases List.mem_cons.1 hp with heq | hmem
      · rw [heq]
        exact le_trans (foldl_push_min_le rest _) (le_refl _)
      · exact foldl_push_min_mem_le rest _ p hmem
    · rcases foldl_push_max_mem rest (Agg.single e.1 e.2) with heq | hmem
      · rw [heq]
        show e.2 ∈ (e :: rest).map Prod.snd
        rw [List.map_cons]
        exact List.mem_cons_self _ _
      · rw [List.map_cons]
        exact List.mem_cons_of_mem _ hmem
    · intro p hp
      rcases List.mem_cons.1 hp with heq | hmem
      · rw [heq]
        exact le_trans (le_refl _) (foldl_push_max_le rest _)
      · exact foldl_push_max_mem_le rest _ p hmem
    · rw [Agg.mean, foldl_push_sum, foldl_push_count]
      have h1 : (Agg.single e.1 e.2).sum + (rest.map Prod.snd).sum =
          ((e :: rest).map Prod.snd).sum := by
        rw [List.map_cons, List.sum_cons]
        rfl
      have h2 : (Agg.single e.1 e.2).count + rest.length = (e :: rest).length := by
        show 1 + rest.length = rest.length + 1
        omega
      rw [h1, h2]
    · rcases foldl_push_last_mem rest (Agg.single e.1 e.2) with ⟨h1, h2⟩ | hmem
      · rw [h1, h2]
        exact List.mem_cons_self _ _
      · exact List.mem_cons_of_mem _ hmem
    · intro p hp
      rcases List.mem_cons.1 hp with heq | hmem
      · rw [heq]
        exact foldl_push_lastTs_le rest _
      · exact foldl_push_last_ub rest _ p hmem

/-- The stored-state fields one valid-sample step changes, expressed over
the pre-state. -/
theorem ingestSample_state_fields (cfg : Config) (dev : String)
    (acc : List SampleStatus × SysState) (s : RawSample)
    (hv : validateSample cfg s = none) :
    (ingestSample cfg dev acc s).2.rollups = acc.2.rollups ∧
    (ingestSample cfg dev acc s).2.dirty =
      ((resolveChannel acc.2 dev s.metricKey s.subjectRef).1, s.ts) :: acc.2.dirty ∧
    (ingestSample cfg dev acc s).2.samples =
      setSample acc.2.samples
        (resolveChannel acc.2 dev s.metricKey s.subjectRef).1 s.ts s.value := by
  rw [ingestSample_valid cfg dev acc s hv]
  refine ⟨resolveChannel_rollups acc.2 dev s.metricKey s.subjectRef, ?_, ?_⟩
  · exact congrArg
      (fun d => ((resolveChannel acc.2 dev s.metricKey s.subjectRef).1, s.ts) :: d)
      (resolveChannel_dirty acc.2 dev s.metricKey s.subjectRef)
  · exact congrArg
      (fun ss => setSample ss
        (resolveChannel acc.2 dev s.metricKey s.subjectRef).1 s.ts s.value)
      (resolveChannel_samples acc.2 dev s.metricKey s.subjectRef)

/-- One gateway step keeps every maintained rollup row aligned and either
dirty-marked or still accurate. -/
theorem ingestSample_staleOk (cfg : Config) (dev : String)
    (acc : List SampleStatus × SysState) (s : RawSample)
    (hWpos : ∀ w ∈ cfg.windows, 0 < w)
    (h : StaleOk cfg acc.2) : StaleOk cfg (ingestSample cfg dev acc s).2 := by
  cases hv : validateSample cfg s with
  | some r => rw [ingestSample_invalid cfg dev acc s r hv]; exact h
  | none =>
    obtain ⟨hR, hD, hS⟩ := ingestSample_state_fields cfg dev acc s hv
    intro k a hk
    rw [hR] at hk
    obtain ⟨hgood, hrest⟩ := h k a hk
    refine ⟨hgood, ?_⟩
    rw [hD, hS]
    rcases hrest with hdirty | hacc2
    · exact Or.inl (dirtyBuckets_mono_cons cfg.windows acc.2.dirty _ k hdirty)
    · by_cases hcov : k.1 = (resolveChannel acc.2 dev s.metricKey s.subjectRef).1 ∧
        k.2.2 ≤ s.ts ∧ s.ts < k.2.2 + k.2.1
      · refine Or.inl ?_
        have hb : bucketStart k.2.1 s.ts = k.2.2 :=
          bucketStart_eq_of_cover k.2.1 k.2.2 s.ts (hWpos k.2.1 hgood.1)
            hgood.2 hcov.2.1 hcov.2.2
        have hmem := mem_dirtyBuckets_of cfg.windows
          (((resolveChannel acc.2 dev s.metricKey s.subjectRef).1, s.ts) :: acc.2.dirty)
          ((resolveChannel acc.2 dev s.metricKey s.subjectRef).1, s.ts) k.2.1
          (List.mem_cons_self _ _) hgood.1
        have hk3 : k = ((resolveChannel acc.2 dev s.metricKey s.subjectRef).1,
            k.2.1, bucketStart k.2.1 s.ts) := by
          rw [hb, ← hcov.1]
        rw [hk3]
        exact hmem
      · refine Or.inr ?_
        rw [bucketSamples_setSample_ne acc.2.samples
          (resolveChannel acc.2 dev s.metricKey s.subjectRef).1 s.ts s.value
          k.1 k.2.1 k.2.2 hcov]
        exact hacc2

/-- Batch processing keeps every maintained rollup row aligned and either
dirty-marked or still accurate. -/
theorem foldl_ingest_staleOk (cfg : Config) (dev : String)
    (hWpos : ∀ w ∈ cfg.windows, 0 < w) :
    ∀ (batch : List RawSample) (acc : List SampleStatus × SysState),
      StaleOk cfg acc.2 →
      StaleOk cfg ((batch.foldl (ingestSample cfg dev) acc).2) := by
  intro batch
  induction batch with
  | nil => intro acc h; exact h
  | cons s rest ih =>
    intro acc h
    rw [List.foldl_cons]
    exact ih _ (ingestSample_staleOk cfg dev acc s hWpos h)

/-- Recomputing a worklist of aligned keys turns stale-or-dirty rollups
into accurate ones. -/
theorem foldl_recompute_accurate (cfg : Config)
    (samples : List ((Nat × Int) × Rat)) :
    ∀ (ks : List (Nat × Int × Int)) (rs : List ((Nat × Int × Int) × Agg)),
      (∀ k ∈ ks, goodKey cfg k) →
      (∀ k a, (k, a) ∈ rs → goodKey cfg k ∧
        (k ∈ ks ∨ mkAgg (bucketSamples samples k.1 k.2.1 k.2.2) = some a)) →
      ∀ k a, (k, a) ∈ ks.foldl (recomputeKey samples) rs →
        goodKey cfg k ∧ mkAgg (bucketSamples samples k.1 k.2.1 k.2.2) = some a := by
  intro ks
  induction ks with
  | nil =>
    intro rs hks hinv k a hm
    obtain ⟨hg, hrest⟩ := hinv k a hm
    rcases hrest with h0 | hacc
    · exact absurd h0 (List.not_mem_nil k)
    · exact ⟨hg, hacc⟩
  | cons k0 rest ih =>
    intro rs hks hinv k a hm
    rw [List.foldl_cons] at hm
    refine ih (recomputeKey samples rs k0)
      (fun k2 hk2 => hks k2 (List.mem_cons_of_mem _ hk2)) ?_ k a hm
    intro k2 a2 hm2
    unfold recomputeKey at hm2
    cases hag : mkAgg (bucketSamples samples k0.1 k0.2.1 k0.2.2) with
    | some a0 =>
      rw [hag] at hm2
      unfold upsertRollup at hm2
      rcases List.mem_cons.1 hm2 with heq | hmem2
      · have h1 : k2 = k0 := congrArg Prod.fst heq
        have h2 : a2 = a0 := congrArg Prod.snd heq
        subst h1
        subst h2
        exact ⟨hks k2 (List.mem_cons_self _ _), Or.inr hag⟩
      · obtain ⟨hmem3, hpred⟩ := List.mem_filter.1 hmem2
        have hne : k2 ≠ k0 := by
          simp only [decide_eq_true_eq] at hpred
          exact hpred
        obtain ⟨hg2, hrest2⟩ := hinv k2 a2 hmem3
        refine ⟨hg2, ?_⟩
        rcases hrest2 with hin | hacc
        · rcases List.mem_cons.1 hin with heq2 | hin2
          · exact absurd heq2 hne
          · exact Or.inl hin2
        · exact Or.inr hacc
    | none =>
      rw [hag] at hm2
      obtain ⟨hmem3, hpred⟩ := List.mem_filter.1 hm2
      have hne : k2 ≠ k0 := by
        simp only [decide_eq_true_eq] at hpred
        exact hpred
      obtain ⟨hg2, hrest2⟩ := hinv k2 a2 hmem3
      refine ⟨hg2, ?_⟩
      rcases hrest2 with hin | hacc
      · rcases List.mem_cons.1 hin with heq2 | hin2
        · exact absurd heq2 hne
        · exact Or.inl hin2
      · exact Or.inr hacc

/-- Settling pending recomputation restores full rollup accuracy. -/
theorem settle_accurate (cfg : Config) (st : SysState) (h : StaleOk cfg st) :
    RollupsAccurate cfg (settle cfg st) := by
  intro k a hk
  exact foldl_recompute_accurate cfg st.samples
    (dirtyBuckets cfg.windows st.dirty) st.rollups
    (fun k2 hk2 => dirtyBuckets_goodKey cfg st.dirty k2 hk2) h k a hk

/-- An authentication failure rejects the batch with no side effect. -/
theorem ingest_auth_fail (cfg : Config) (st : SysState) (cred rid : String)
    (batch : List RawSample) (h : alookup cfg.auths cred = none) :
    ingest cfg st cred rid batch = (⟨BatchStatus.rejectedBatch, []⟩, st) := by
  simp only [ingest, h]

/-- Every batch-level rejection (empty request id, oversized batch,
request-id collision) rejects the batch with no side effect. -/
theorem ingest_batch_reject (cfg : Config) (st : SysState) (cred rid : String)
    (batch : List RawSample) (dev : String)
    (hauth : alookup cfg.auths cred = some dev)
    (hfresh : alookup st.ledger (dev, rid) = none)
    (h : rid = "" ∨ cfg.maxBatch < batch.length ∨
      ridCollision st.ledger dev rid = true) :
    ingest cfg st cred rid batch = (⟨BatchStatus.rejectedBatch, []⟩, st) := by
  simp only [ingest, hauth, hfresh]
  by_cases hr : rid = ""
  · rw [if_pos hr]
  · rw [if_neg hr]
    by_cases hsz : cfg.maxBatch < batch.length
    · rw [if_pos hsz]
    · rw [if_neg hsz]
      rcases h with h | h | h
      · exact absurd h hr
      · exact absurd h hsz
      · rw [if_pos h]

/-- C3: rollup accuracy is an invariant of ingestion -- after any call,
once pending recomputation has settled (which ingestion does before
returning), every maintained bucket is aligned, equals the recomputation
from raw samples, and satisfies the direct reference formulas for
count, sum, min, max, mean and last over the raw samples of its window. -/
theorem rollup_correctness (cfg : Config) (st : SysState) (cred rid : String)
    (batch : List RawSample)
    (hWpos : ∀ w ∈ cfg.windows, 0 < w)
    (hacc : RollupsAccurate cfg st) :
    RollupsAccurate cfg (ingest cfg st cred rid batch).2 ∧
    (∀ k a, (k, a) ∈ (ingest cfg st cred rid batch).2.rollups →
      a.count = (bucketSamples (ingest cfg st cred rid batch).2.samples
        k.1 k.2.1 k.2.2).length ∧
      a.sum = ((bucketSamples (ingest cfg st cred rid batch).2.samples
        k.1 k.2.1 k.2.2).map Prod.snd).sum ∧
      a.minv ∈ (bucketSamples (ingest cfg st cred rid batch).2.samples
        k.1 k.2.1 k.2.2).map Prod.snd ∧
      (∀ p ∈ bucketSamples (ingest cfg st cred rid batch).2.samples
        k.1 k.2.1 k.2.2, a.minv ≤ p.2) ∧
      a.maxv ∈ (bucketSamples (ingest cfg st cred rid batch).2.samples
        k.1 k.2.1 k.2.2).map Prod.snd ∧
      (∀ p ∈ bucketSamples (ingest cfg st cred rid batch).2.samples
        k.1 k.2.1 k.2.2, p.2 ≤ a.maxv) ∧
      a.mean = ((bucketSamples (ingest cfg st cred rid batch).2.samples
        k.1 k.2.1 k.2.2).map Prod.snd).sum /
        ((bucketSamples (ingest cfg st cred rid batch).2.samples
          k.1 k.2.1 k.2.2).length : Rat) ∧
      (a.lastTs, a.lastVal) ∈ bucketSamples
        (ingest cfg st cred rid batch).2.samples k.1 k.2.1 k.2.2 ∧
      (∀ p ∈ bucketSamples (ingest cfg st cred rid batch).2.samples
        k.1 k.2.1 k.2.2, p.1 ≤ a.lastTs)) := by
  have hfirst : RollupsAccurate cfg (ingest cfg st cred rid batch).2 := by
    cases hauth : alookup cfg.auths cred with
    | none => rw [ingest_auth_fail cfg st cred rid batch hauth]; exact hacc
    | some dev =>
      cases hled : alookup st.ledger (dev, rid) with
      | some out => rw [ingest_replay cfg st cred rid batch dev out hauth hled]; exact hacc
      | none =>
        by_cases hr : rid = ""
        · rw [ingest_batch_reject cfg st cred rid batch dev hauth hled (Or.inl hr)]
          exact hacc
        · by_cases hsz : cfg.maxBatch < batch.length
          · rw [ingest_batch_reject cfg st cred rid batch dev hauth hled
              (Or.inr (Or.inl hsz))]
            exact hacc
          · cases hcl : ridCollision st.ledger dev rid with
            | true =>
              rw [ingest_batch_reject cfg st cred rid batch dev hauth hled
                (Or.inr (Or.inr hcl))]
              exact hacc
            | false =>
              rw [ingest_fresh cfg st cred rid batch dev hauth hled hr (by omega) hcl]
              have h0 : StaleOk cfg st :=
                fun k a hk => ⟨(hacc k a hk).1, Or.inr (hacc k a hk).2⟩
              have h1 : StaleOk cfg (processBatch cfg st dev batch).2 :=
                foldl_ingest_staleOk cfg dev hWpos batch ([], st) h0
              have h2 : RollupsAccurate cfg
                  (settle cfg (processBatch cfg st dev batch).2) :=
                settle_accurate cfg _ h1
              exact fun k a hk => h2 k a hk
  refine ⟨hfirst, ?_⟩
  intro k a hk
  exact mkAgg_spec _ a (hfirst k a hk).2

/-- C3 witness: after ingesting one concrete sample, the maintained
one-minute bucket's count equals the raw bucket's sample count. -/
theorem rollup_correctness_witness :
    (⟨1, 5, 5, 5, 30, 5⟩ : Agg).count =
      (bucketSamples (ingest cfg0 st0 "key1" "r1" [sample0]).2.samples
        1 60 0).length := by
  have h := (rollup_correctness cfg0 st0 "key1" "r1" [sample0]
    (by decide) (fun k a hk => absurd hk (List.not_mem_nil _))).2
    (1, 60, 0) ⟨1, 5, 5, 5, 30, 5⟩ (by decide)
  exact h.1
